import Mathlib

/-!
Verification development for the minigem-telemetry repository.

The definitions below are shallow embeddings of the TypeScript/JavaScript
sources of the repository:
  - `src/ingest/src/validate.ts` (event normalization and validation),
  - `src/ingest/src/server.ts` (client IP selection and the POST /t
    ingestion loop),
  - the file based aggregator `readWindowStats` (stats module, the jsonl
    aggregation path),
  - the database aggregator `dbReadStats` (db module: date range
    resolution, error rates, duration histogram).

Dynamic JavaScript values are embedded as `Option` types; machine numbers
are embedded as `Int`/`Nat` (all quantities involved are integral and far
from any overflow boundary); JS objects used as string keyed maps are
embedded as association lists.
-/

namespace Minigem

/-- The closed set of recognized event names (`EVENTS` in validate.ts). -/
def EVENTS : List String :=
  ["lifecycle.activate", "lifecycle.deactivate", "extension.upgraded",
   "java.run.started", "java.run.completed", "java.run.error",
   "feature.webview.open", "feature.theme.change",
   "feature.customCss.enable", "feature.customCss.disable",
   "settings.changed", "error.unhandled", "telemetry.optout", "telemetry.optin",
   "test.ping", "install.created"]

/-- One character of the character class `[a-f0-9]`. -/
def isHexChar (c : Char) : Bool :=
  (('a' ≤ c) && (c ≤ 'f')) || (('0' ≤ c) && (c ≤ '9'))

/-- The regex test `^[a-f0-9]{32}$` applied to the `anon` field (validate.ts). -/
def isHex32 (s : String) : Bool :=
  s.length == 32 && s.data.all isHexChar

/-- A client supplied event object, as seen by `normalizeEvent`.
JS dynamic values are embedded as options: `t = none` stands for a value
that does not coerce to a finite number (missing, `NaN`, a non numeric
string, an object); `t = some n` is the finite value obtained from a
number or a numeric string.  A field that is not a string is `none`. -/
structure RawEvent where
  t : Option Int := none
  anon : Option String := none
  evt : Option String := none
  os : Option String := none
  ext : Option String := none
  vscode : Option String := none
  deriving Repr, DecidableEq

/-- A normalized canonical event (the non null result of `normalizeEvent`). -/
structure CanonEvent where
  t : Int
  anon : String
  evt : String
  os : String
  ext : String
  vscode : String
  deriving Repr, DecidableEq

/-- `normalizeEvent` from validate.ts: coerce `t` (fail on non finite),
apply the seconds to milliseconds heuristic below `1e12`, fill defaults for
`ext` / `vscode` / `os`, then reject on a bad `anon`, an unrecognized
`evt`, or an oversized bounded field. -/
def normalizeEvent (r : RawEvent) : Option CanonEvent :=
  match r.t with
  | none => none
  | some t0 =>
    let t := if t0 < 1000000000000 then t0 * 1000 else t0
    let ext := r.ext.getD "0.0.0"
    let vscode := r.vscode.getD "0.0.0"
    let os := r.os.getD "unknown"
    match r.anon with
    | none => none
    | some anon =>
      if !isHex32 anon then none
      else
        match r.evt with
        | none => none
        | some evt =>
          if !(EVENTS.contains evt) then none
          else if ext.length > 30 || vscode.length > 30 || os.length > 30 then none
          else some { t, anon, evt, os, ext, vscode }

/-- `validateEvent` from validate.ts, re-checking the invariants on an
already normalized record (the `typeof t` check is carried by the type of
`CanonEvent.t`). -/
def validateEvent (e : CanonEvent) : Bool :=
  isHex32 e.anon && EVENTS.contains e.evt &&
  decide (e.ext.length ≤ 30) && decide (e.vscode.length ≤ 30) && decide (e.os.length ≤ 30)

/-- The `anon` field fails the `^[a-f0-9]{32}$` test (a missing or non
string value counts as failing, exactly as the `typeof` guard does). -/
def badAnon (r : RawEvent) : Bool :=
  match r.anon with
  | none => true
  | some a => !isHex32 a

/-- The `evt` field is not a recognized event name (a missing or non
string value counts as unrecognized). -/
def badEvt (r : RawEvent) : Bool :=
  match r.evt with
  | none => true
  | some v => !(EVENTS.contains v)

/-- C5 counterexample: the claim states that a valid 32-hex `anon`
together with a recognized `evt` makes `normalizeEvent` succeed, but an
event whose timestamp does not coerce to a finite number is rejected even
when both of those fields are valid. -/
theorem C5_counterexample :
    isHex32 "aaaaaaaaaaaaaaaaaaaaaaaaaaaaaaaa" = true ∧
    EVENTS.contains "test.ping" = true ∧
    normalizeEvent { t := none, anon := some "aaaaaaaaaaaaaaaaaaaaaaaaaaaaaaaa",
                     evt := some "test.ping" } = none := by
  exact ⟨by decide, by decide, rfl⟩

/-- C5 (amended): if the timestamp coerces to a finite number, `anon` is
32 lowercase hex characters, `evt` is recognized, and the defaulted
`os`/`ext`/`vscode` strings are at most 30 characters, then
`normalizeEvent` succeeds and `validateEvent` holds of the result; and
whenever `anon` fails the regex or `evt` is unrecognized, `normalizeEvent`
returns null. -/
theorem C5_normalize_validate (r : RawEvent) :
    (∀ t0 anon evt, r.t = some t0 → r.anon = some anon → r.evt = some evt →
      isHex32 anon = true → EVENTS.contains evt = true →
      (r.os.getD "unknown").length ≤ 30 →
      (r.ext.getD "0.0.0").length ≤ 30 →
      (r.vscode.getD "0.0.0").length ≤ 30 →
      ∃ e, normalizeEvent r = some e ∧ validateEvent e = true) ∧
    ((badAnon r = true ∨ badEvt r = true) → normalizeEvent r = none) := by
  constructor
  · intro t0 anon evt ht ha he hhex hevt hos hext hvs
    have h1 : decide ((r.ext.getD "0.0.0").length > 30) = false := by
      simp only [decide_eq_false_iff_not, gt_iff_lt, not_lt]; exact hext
    have h2 : decide ((r.vscode.getD "0.0.0").length > 30) = false := by
      simp only [decide_eq_false_iff_not, gt_iff_lt, not_lt]; exact hvs
    have h3 : decide ((r.os.getD "unknown").length > 30) = false := by
      simp only [decide_eq_false_iff_not, gt_iff_lt, not_lt]; exact hos
    have hn : normalizeEvent r = some
        { t := if t0 < 1000000000000 then t0 * 1000 else t0, anon := anon, evt := evt,
          os := r.os.getD "unknown", ext := r.ext.getD "0.0.0",
          vscode := r.vscode.getD "0.0.0" } := by
      simp only [normalizeEvent, ht, ha, he, hhex, hevt, h1, h2, h3, Bool.not_true,
        Bool.false_eq_true, if_false, Bool.or_false, Bool.or_self]
    refine ⟨_, hn, ?_⟩
    simp only [validateEvent, hhex, hevt, Bool.true_and]
    simp only [Bool.and_eq_true, decide_eq_true_eq]
    exact ⟨⟨hext, hvs⟩, hos⟩
  · intro hbad
    unfold normalizeEvent
    match hrt : r.t with
    | none => rfl
    | some t0 =>
      match hra : r.anon with
      | none => simp
      | some a =>
        rcases hbad with hb | hb
        · unfold badAnon at hb
          rw [hra] at hb
          simp only [Bool.not_eq_true'] at hb
          simp [hb]
        · unfold badEvt at hb
          by_cases hhex : isHex32 a
          · simp only [hhex, Bool.not_true, Bool.false_eq_true, if_false]
            match hre : r.evt with
            | none => simp
            | some v =>
              rw [hre] at hb
              simp only [Bool.not_eq_true'] at hb
              simp only [hb, Bool.not_false, if_true]
          · simp [hhex]

/-- Witness for C5: the amended positive direction applied to a concrete
valid raw event. -/
theorem C5_normalize_validate_witness :
    ∃ e, normalizeEvent { t := some 2000000000000,
                          anon := some "aaaaaaaaaaaaaaaaaaaaaaaaaaaaaaaa",
                          evt := some "test.ping" } = some e ∧ validateEvent e = true :=
  (C5_normalize_validate _).1 2000000000000 "aaaaaaaaaaaaaaaaaaaaaaaaaaaaaaaa" "test.ping"
    rfl rfl rfl (by decide) (by decide) (by decide) (by decide) (by decide)

/-- The JS `String.prototype.trim` over the character list (whitespace
stripped from both ends). -/
def jsTrim (s : String) : String :=
  ⟨((s.data.dropWhile Char.isWhitespace).reverse.dropWhile Char.isWhitespace).reverse⟩

/-- The JS `String.prototype.toLowerCase` (ASCII case mapping suffices for
the schema comparison below). -/
def jsToLower (s : String) : String :=
  ⟨s.data.map Char.toLower⟩

/-- The schema normalization applied by the POST /t handler: a non string
schema becomes the empty string, a string is trimmed and lowercased
(server.ts, `raw.schema.trim().toLowerCase()`). -/
def normSchema : Option String → String
  | none => ""
  | some s => jsToLower (jsTrim s)

/-- The outcome of one POST /t request (server.ts). -/
inductive IngestOutcome where
  | schemaRejected
  | ok (accepted skipped : Nat)
  deriving Repr, DecidableEq

/-- One step of the per event loop of POST /t: normalization or validation
failure skips the event, a store failure (modelled by the `store` oracle
returning false) skips the event, otherwise it is accepted.  The two log
file appends are wrapped in empty catch blocks in the source and do not
affect the counts. -/
def ingestStep (store : CanonEvent → Bool) (acc : Nat × Nat) (r : RawEvent) : Nat × Nat :=
  match normalizeEvent r with
  | none => (acc.1, acc.2 + 1)
  | some e =>
    if !validateEvent e then (acc.1, acc.2 + 1)
    else if store e then (acc.1 + 1, acc.2) else (acc.1, acc.2 + 1)

/-- The per event loop of POST /t over the whole batch, returning
(accepted, skipped). -/
def processBatch (store : CanonEvent → Bool) (batch : List RawEvent) : Nat × Nat :=
  batch.foldl (ingestStep store) (0, 0)

/-- The POST /t handler: reject when the normalized schema differs from
jwc.v1, otherwise run the batch loop.  A single event body is passed as a
batch of one by the caller. -/
def ingest (schema : Option String) (batch : List RawEvent)
    (store : CanonEvent → Bool) : IngestOutcome :=
  if normSchema schema ≠ "jwc.v1" then .schemaRejected
  else
    let p := processBatch store batch
    .ok p.1 p.2

/-- C3 counterexample: the schema string "JWC.V1" is not exactly "jwc.v1",
yet the request is accepted (the handler lowercases and trims the field
before comparing), so the claimed "if and only if" fails. -/
theorem C3_counterexample :
    ("JWC.V1" ≠ "jwc.v1") ∧
    ingest (some "JWC.V1") [] (fun _ => true) = .ok 0 0 := by
  exact ⟨by decide, by decide⟩

/-- C3 (amended): the request is rejected with no per event processing if
and only if the schema field, trimmed and lowercased (with a non string
taken as empty), differs from "jwc.v1". -/
theorem C3_schema_gate (schema : Option String) (batch : List RawEvent)
    (store : CanonEvent → Bool) :
    ingest schema batch store = .schemaRejected ↔ normSchema schema ≠ "jwc.v1" := by
  unfold ingest
  by_cases h : normSchema schema = "jwc.v1" <;> simp [h]

/-- Witness for C3: the amended gate applied to a concrete rejected schema. -/
theorem C3_schema_gate_witness :
    ingest (some "nope") ([] : List RawEvent) (fun _ => true) = .schemaRejected :=
  (C3_schema_gate (some "nope") [] (fun _ => true)).mpr (by decide)

/-- A single loop step moves the sum of the two counters up by exactly one. -/
theorem ingestStep_sum (store : CanonEvent → Bool) (a : Nat × Nat) (r : RawEvent) :
    (ingestStep store a r).1 + (ingestStep store a r).2 = a.1 + a.2 + 1 := by
  unfold ingestStep
  cases normalizeEvent r with
  | none => simp; omega
  | some e =>
    by_cases hv : validateEvent e
    · simp only [hv, Bool.not_true, Bool.false_eq_true, if_false]
      by_cases hs : store e
      · simp only [hs, if_true]; omega
      · simp only [hs, Bool.false_eq_true, if_false]; omega
    · simp only [Bool.not_eq_true', Bool.not_eq_false] at hv
      simp only [hv, Bool.not_false, if_true]; omega

/-- Sum of the two counters after the batch loop, starting from any
accumulator. -/
theorem ingest_acc_sum (store : CanonEvent → Bool) (batch : List RawEvent) :
    ∀ a : Nat × Nat,
      (batch.foldl (ingestStep store) a).1 + (batch.foldl (ingestStep store) a).2 =
        a.1 + a.2 + batch.length := by
  induction batch with
  | nil => intro a; simp
  | cons r rest ih =>
    intro a
    simp only [List.foldl_cons, List.length_cons]
    rw [ih (ingestStep store a r), ingestStep_sum]
    omega

/-- C4: the batch loop processes every event independently; the accepted
and skipped counters always sum to the number of submitted events, and a
concrete batch of three events with exactly one invalid `anon` yields
accepted 2, skipped 1. -/
theorem C4_batch_counts :
    (∀ (batch : List RawEvent) (store : CanonEvent → Bool),
      (processBatch store batch).1 + (processBatch store batch).2 = batch.length) ∧
    ingest (some "jwc.v1")
      [{ t := some 2000000000000, anon := some "aaaaaaaaaaaaaaaaaaaaaaaaaaaaaaaa",
         evt := some "test.ping" },
       { t := some 2000000000000, anon := some "not-a-valid-anon",
         evt := some "test.ping" },
       { t := some 2000000000000, anon := some "bbbbbbbbbbbbbbbbbbbbbbbbbbbbbbbb",
         evt := some "lifecycle.activate" }]
      (fun _ => true) = .ok 2 1 := by
  constructor
  · intro batch store
    simpa using ingest_acc_sum store batch (0, 0)
  · decide

/-- A stored event row as seen by the two aggregation paths.  These are
the fields the claims under study read; the jsonl path reads them off the
parsed json line, the database path off the corresponding columns.
`durationMs = none` stands for a missing or non numeric `m.durationMs`
(whose JS coercion `Number(x) || 0` yields the fallback), and likewise for
the other optional metadata fields. -/
structure StoredEvent where
  t : Int := 0
  anon : String := ""
  evt : String := ""
  country : String := ""
  durationMs : Option Int := none
  waitMsTotal : Option Int := none
  phase : Option String := none
  deriving Repr, DecidableEq

/-- The nearest rank percentile of `readWindowStats` (stats module):
index `ceil(p / 100 * n) - 1` clamped into `[0, n - 1]`, with 0 returned
for the empty sample. -/
def percentile (sorted : List Int) (p : ℚ) : Int :=
  if sorted.length = 0 then 0
  else
    let idx : Int := ⌈p / 100 * (sorted.length : ℚ)⌉ - 1
    sorted.getD (max 0 (min ((sorted.length : Int) - 1) idx)).toNat 0

/-- Median of the concrete five element sample of the spec. -/
theorem percentile_example_median : percentile [10, 20, 30, 40, 50] 50 = 30 := by
  have hc : (⌈(5 : ℚ) / 2⌉ : Int) = 3 := by
    rw [Int.ceil_eq_iff]
    constructor <;> norm_num
  simp only [percentile, List.length_cons, List.length_nil]
  norm_num [hc]
  decide

/-- 90th percentile of the concrete five element sample of the spec. -/
theorem percentile_example_p90 : percentile [10, 20, 30, 40, 50] 90 = 50 := by
  have hc : (⌈(9 : ℚ) / 2⌉ : Int) = 5 := by
    rw [Int.ceil_eq_iff]
    constructor <;> norm_num
  simp only [percentile, List.length_cons, List.length_nil]
  norm_num [hc]
  decide

/-- C9: on a nonempty ascending sample the percentile is the element at
the clamped nearest rank index, and the two examples of the spec hold:
for the sample 10,20,30,40,50 the median is 30 and the 90th percentile
is 50. -/
theorem C9_percentile_nearest_rank (sorted : List Int) (p : ℚ) (h : 0 < sorted.length) :
    (∃ (i : Nat) (hi : i < sorted.length),
        percentile sorted p = sorted.get ⟨i, hi⟩ ∧
        (i : Int) = max 0 (min ((sorted.length : Int) - 1)
          (⌈p / 100 * (sorted.length : ℚ)⌉ - 1))) ∧
    percentile [10, 20, 30, 40, 50] 50 = 30 ∧
    percentile [10, 20, 30, 40, 50] 90 = 50 := by
  refine ⟨?_, percentile_example_median, percentile_example_p90⟩
  set j : Int := max 0 (min ((sorted.length : Int) - 1) (⌈p / 100 * (sorted.length : ℚ)⌉ - 1))
    with hj
  have hj0 : 0 ≤ j := le_max_left _ _
  have hjlt : j < (sorted.length : Int) := by
    have hmin : min ((sorted.length : Int) - 1) (⌈p / 100 * (sorted.length : ℚ)⌉ - 1) ≤
        (sorted.length : Int) - 1 := min_le_left _ _
    have hlen : (1 : Int) ≤ (sorted.length : Int) := by exact_mod_cast h
    have : j ≤ (sorted.length : Int) - 1 := by
      rw [hj]
      exact max_le (by omega) hmin
    omega
  have hnat : j.toNat < sorted.length := by omega
  refine ⟨j.toNat, hnat, ?_, ?_⟩
  · unfold percentile
    rw [if_neg (by omega), List.get_eq_getElem]
    exact List.getD_eq_getElem _ _ hnat
  · omega

/-- Witness for C9: the theorem applied to the concrete sorted sample of
the spec at the 50th percentile. -/
theorem C9_percentile_nearest_rank_witness :
    percentile [10, 20, 30, 40, 50] 50 = 30 :=
  (C9_percentile_nearest_rank [10, 20, 30, 40, 50] 50 (by decide)).2.1

/-- The JS coercion `Number(e.m.durationMs) || 0` of the jsonl aggregator
(a missing or non numeric value falls back to 0). -/
def durOf (e : StoredEvent) : Int := e.durationMs.getD 0

/-- The durations sample of `readWindowStats`: completed run events whose
coerced duration is strictly positive. -/
def durationsOf (events : List StoredEvent) : List Int :=
  events.filterMap fun e =>
    if e.evt = "java.run.completed" then
      (if durOf e > 0 then some (durOf e) else none)
    else none

/-- Ascending insertion, used to model the in place `sort((a,b) => a-b)`
applied to the durations sample. -/
def insertAsc (x : Int) : List Int → List Int
  | [] => [x]
  | y :: ys => if x ≤ y then x :: y :: ys else y :: insertAsc x ys

/-- Ascending sort of the durations sample. -/
def sortInts : List Int → List Int
  | [] => []
  | x :: xs => insertAsc x (sortInts xs)

theorem length_insertAsc (x : Int) (l : List Int) :
    (insertAsc x l).length = l.length + 1 := by
  induction l with
  | nil => rfl
  | cons y ys ih =>
    unfold insertAsc
    by_cases h : x ≤ y
    · simp [h]
    · simp [h, ih]

theorem length_sortInts (l : List Int) : (sortInts l).length = l.length := by
  induction l with
  | nil => rfl
  | cons x xs ih => simp [sortInts, length_insertAsc, ih]

/-- The bucket selected for one duration by the `findIndex` over
`HIST_EDGES = [0,500,1000,3000,10000,30000,60000,120000]`; a miss
(`findIndex` returning -1) lands in the last bucket, exactly as in the
source. -/
def bucketOf (d : Int) : Fin 8 :=
  if 0 ≤ d ∧ d < 500 then 0
  else if 500 ≤ d ∧ d < 1000 then 1
  else if 1000 ≤ d ∧ d < 3000 then 2
  else if 3000 ≤ d ∧ d < 10000 then 3
  else if 10000 ≤ d ∧ d < 30000 then 4
  else if 30000 ≤ d ∧ d < 60000 then 5
  else if 60000 ≤ d ∧ d < 120000 then 6
  else 7

/-- The `histVals` tallies of the jsonl aggregator: one increment per
sample element, in the bucket chosen by `bucketOf`. -/
def histValues : List Int → Fin 8 → Nat
  | [], _ => 0
  | d :: rest, b => (if bucketOf d = b then 1 else 0) + histValues rest b

/-- Sum of the eight histogram bucket values. -/
def histSum (l : List Int) : Nat := ∑ b : Fin 8, histValues l b

theorem histSum_cons (d : Int) (l : List Int) : histSum (d :: l) = 1 + histSum l := by
  unfold histSum
  rw [show (∑ b : Fin 8, histValues (d :: l) b) =
      (∑ b : Fin 8, ((if bucketOf d = b then 1 else 0) + histValues l b)) from rfl]
  rw [Finset.sum_add_distrib, Finset.sum_ite_eq]
  simp

theorem histSum_eq_length (l : List Int) : histSum l = l.length := by
  induction l with
  | nil => rfl
  | cons d rest ih => rw [histSum_cons, ih, List.length_cons]; omega

/-- Spec side count for the C6 counterexample: completed run events whose
stored duration field is present (non null), whatever its value. -/
def completedNonNullDur (events : List StoredEvent) : Nat :=
  (events.filter fun e => (e.evt == "java.run.completed") && e.durationMs.isSome).length

/-- The bucket of the database histogram `qDurHist` hit by a non null
duration, if any: each `case when` branch requires its lower edge, so a
negative duration satisfies no branch. -/
def dbBucketOf (d : Int) : Option (Fin 8) :=
  if 0 ≤ d ∧ d < 500 then some 0
  else if 500 ≤ d ∧ d < 1000 then some 1
  else if 1000 ≤ d ∧ d < 3000 then some 2
  else if 3000 ≤ d ∧ d < 10000 then some 3
  else if 10000 ≤ d ∧ d < 30000 then some 4
  else if 30000 ≤ d ∧ d < 60000 then some 5
  else if 60000 ≤ d ∧ d < 120000 then some 6
  else if 120000 ≤ d then some 7
  else none

/-- The contribution of one row to one database histogram bucket: the
subquery keeps completed rows only, and the `case when` branch of bucket
`b` fires exactly when the non null duration hits that bucket. -/
def dbRowHit (e : StoredEvent) (b : Fin 8) : Nat :=
  if e.evt = "java.run.completed" then
    (match e.durationMs with
     | none => 0
     | some d => if dbBucketOf d = some b then 1 else 0)
  else 0

/-- The `qDurHist` tallies of the database path: one
`sum(case when .. then 1 else 0)` per bucket over all completed rows, with
no filter on the duration, so a null duration contributes to no bucket
and a negative one satisfies no `case` branch. -/
def dbHistValues : List StoredEvent → Fin 8 → Nat
  | [], _ => 0
  | e :: rest, b => dbRowHit e b + dbHistValues rest b

/-- Sum of the eight database histogram bucket values. -/
def dbHistSum (events : List StoredEvent) : Nat := ∑ b : Fin 8, dbHistValues events b

/-- The durations count `qDur` of the database path: completed rows whose
coalesced duration is not null (no sign restriction). -/
def dbDurCount (events : List StoredEvent) : Nat :=
  events.countP fun e => (e.evt == "java.run.completed") && e.durationMs.isSome

/-- The duration field of a row is present and non negative. -/
def hasNonNegDur (e : StoredEvent) : Bool :=
  match e.durationMs with
  | none => false
  | some d => decide (0 ≤ d)

/-- The duration field of a row is absent or non negative. -/
def durNonNeg (e : StoredEvent) : Bool :=
  match e.durationMs with
  | none => true
  | some d => decide (0 ≤ d)

/-- C6 counterexample, one defect per aggregation path: in the file based
path a completed event with the non null duration 0 is counted by the
claim but lands in no histogram bucket, because that path only samples
strictly positive coerced durations; in the database path a completed
event with the non null duration -5 is counted by the claim (and by the
reported `qDur` count) but satisfies no `case when` branch of `qDurHist`,
so the bucket values sum to 0 there as well. -/
theorem C6_counterexample :
    completedNonNullDur [{ evt := "java.run.completed", durationMs := some 0 }] = 1 ∧
    histSum (sortInts (durationsOf
      [{ evt := "java.run.completed", durationMs := some 0 }])) = 0 ∧
    completedNonNullDur [{ evt := "java.run.completed", durationMs := some (-5) }] = 1 ∧
    dbDurCount [{ evt := "java.run.completed", durationMs := some (-5) }] = 1 ∧
    dbHistSum [{ evt := "java.run.completed", durationMs := some (-5) }] = 0 := by
  refine ⟨by decide, by decide, by decide, by decide, by decide⟩

theorem dbBucketOf_nonneg (d : Int) (h0 : 0 ≤ d) : dbBucketOf d = some (bucketOf d) := by
  unfold dbBucketOf bucketOf
  split_ifs <;> first | rfl | omega

/-- Each non negative duration hits exactly one database bucket; a
negative one hits none. -/
theorem dbBucket_row_sum (d : Int) :
    (∑ b : Fin 8, if dbBucketOf d = some b then 1 else 0) = if 0 ≤ d then 1 else 0 := by
  by_cases h0 : 0 ≤ d
  · rw [if_pos h0]
    have h := dbBucketOf_nonneg d h0
    have hcongr : (∑ b : Fin 8, if dbBucketOf d = some b then 1 else 0)
        = ∑ b : Fin 8, if bucketOf d = b then 1 else 0 := by
      apply Finset.sum_congr rfl
      intro b _
      rw [h]
      simp
    rw [hcongr, Finset.sum_ite_eq]
    simp
  · rw [if_neg h0]
    have h : dbBucketOf d = none := by
      unfold dbBucketOf
      split_ifs <;> first | omega | rfl
    simp [h]

/-- The eight bucket contributions of one row sum to 1 exactly when the
row is completed with a non null, non negative duration. -/
theorem dbRowHit_sum (e : StoredEvent) :
    (∑ b : Fin 8, dbRowHit e b) =
      (if e.evt = "java.run.completed" then
        (match e.durationMs with
         | none => 0
         | some d => if 0 ≤ d then 1 else 0)
       else 0) := by
  unfold dbRowHit
  by_cases hc : e.evt = "java.run.completed"
  · simp only [hc, eq_self_iff_true, if_true]
    cases hd : e.durationMs with
    | none => simp
    | some d => exact dbBucket_row_sum d
  · simp only [hc, if_false]
    simp

theorem dbHistSum_cons (e : StoredEvent) (rest : List StoredEvent) :
    dbHistSum (e :: rest) =
      (if e.evt = "java.run.completed" then
        (match e.durationMs with
         | none => 0
         | some d => if 0 ≤ d then 1 else 0)
       else 0) + dbHistSum rest := by
  unfold dbHistSum
  rw [show (∑ b : Fin 8, dbHistValues (e :: rest) b)
      = ∑ b : Fin 8, (dbRowHit e b + dbHistValues rest b) from rfl]
  rw [Finset.sum_add_distrib, dbRowHit_sum]

/-- The database bucket values always sum to the number of completed rows
with a non null, non negative duration. -/
theorem dbHistSum_eq (events : List StoredEvent) :
    dbHistSum events =
      events.countP fun e => (e.evt == "java.run.completed") && hasNonNegDur e := by
  induction events with
  | nil => simp [dbHistSum, dbHistValues]
  | cons e rest ih =>
    rw [dbHistSum_cons, ih, List.countP_cons]
    by_cases hc : e.evt = "java.run.completed"
    · cases hd : e.durationMs with
      | none => simp [hc, hd, hasNonNegDur]
      | some d =>
        by_cases h0 : 0 ≤ d
        · simp only [hc, hd, hasNonNegDur, h0, if_pos, if_true, decide_eq_true_eq]
          simp [hc, hd, hasNonNegDur, h0]
          omega
        · simp [hc, hd, hasNonNegDur, h0]
    · simp [hc]

theorem countP_congr_mem {α : Type} (p q : α → Bool) :
    ∀ l : List α, (∀ a ∈ l, p a = q a) → l.countP p = l.countP q := by
  intro l
  induction l with
  | nil => intro _; rfl
  | cons a rest ih =>
    intro h
    rw [List.countP_cons, List.countP_cons,
      ih fun b hb => h b (List.mem_cons_of_mem a hb),
      h a (List.mem_cons_self a rest)]

theorem durationsOf_cons (e : StoredEvent) (rest : List StoredEvent) :
    durationsOf (e :: rest) =
      if e.evt = "java.run.completed" ∧ 0 < durOf e then durOf e :: durationsOf rest
      else durationsOf rest := by
  unfold durationsOf
  rw [List.filterMap_cons]
  by_cases hc : e.evt = "java.run.completed"
  · by_cases hd : durOf e > 0
    · simp [hc, hd]
    · simp [hc, hd]
  · simp [hc]

/-- C6 (amended): for every input event set, in the file based path the
eight histogram bucket values sum to the number of completed run events
whose coerced duration is strictly positive, which is exactly the
durations count that path reports; in the database path they sum to the
number of completed rows with a non null, non negative duration, and they
equal the reported non null durations count `qDur` exactly on windows
where no completed row carries a negative duration (there a zero duration
lands in the first bucket and is counted on both sides). -/
theorem C6_histogram_sum (events : List StoredEvent) :
    (histSum (sortInts (durationsOf events)) =
      (events.filter fun e =>
        (e.evt == "java.run.completed") && decide (0 < durOf e)).length) ∧
    (dbHistSum events =
      events.countP fun e => (e.evt == "java.run.completed") && hasNonNegDur e) ∧
    ((∀ e ∈ events, (e.evt == "java.run.completed") = true → durNonNeg e = true) →
      dbHistSum events = dbDurCount events) := by
  refine ⟨?_, dbHistSum_eq events, ?_⟩
  · rw [histSum_eq_length, length_sortInts]
    induction events with
    | nil => rfl
    | cons e rest ih =>
      rw [durationsOf_cons, List.filter_cons]
      by_cases hc : e.evt = "java.run.completed" <;> by_cases hd : 0 < durOf e <;>
        simp [hc, hd, ih]
  · intro hpos
    rw [dbHistSum_eq]
    unfold dbDurCount
    apply countP_congr_mem
    intro e he
    by_cases hc : (e.evt == "java.run.completed") = true
    · have hnn := hpos e he hc
      cases hd : e.durationMs with
      | none => simp [hc, hasNonNegDur, hd]
      | some d =>
        have hnn' : decide (0 ≤ d) = true := by
          unfold durNonNeg at hnn
          rw [hd] at hnn
          exact hnn
        simp [hc, hasNonNegDur, hd, hnn']
    · rw [Bool.not_eq_true] at hc
      simp [hc]

/-- Witness for C6: the database path equality applied to a window with a
single completed event of positive duration. -/
theorem C6_histogram_sum_witness :
    dbHistSum [{ evt := "java.run.completed", durationMs := some 1500 }] =
      dbDurCount [{ evt := "java.run.completed", durationMs := some 1500 }] :=
  (C6_histogram_sum [{ evt := "java.run.completed", durationMs := some 1500 }]).2.2
    (by decide)

/-- `started` of both aggregation paths: run started events in the window. -/
def startedCount (events : List StoredEvent) : Nat :=
  events.countP fun e => e.evt == "java.run.started"

/-- The jsonl phase of a run error: `e.m.phase || 'runtime'` (a missing or
empty phase is runtime). -/
def phaseJsonl (e : StoredEvent) : String :=
  match e.phase with
  | none => "runtime"
  | some p => if p = "" then "runtime" else p

/-- Compile errors of the jsonl path. -/
def compileErrJsonl (events : List StoredEvent) : Nat :=
  events.countP fun e => (e.evt == "java.run.error") && (phaseJsonl e == "compile")

/-- Runtime errors of the jsonl path. -/
def runtimeErrJsonl (events : List StoredEvent) : Nat :=
  events.countP fun e => (e.evt == "java.run.error") && !(phaseJsonl e == "compile")

/-- The denominator `Math.max(1, started)` of the jsonl path. -/
def compRateDen (events : List StoredEvent) : Nat := max 1 (startedCount events)

/-- Compile error rate of the jsonl path. -/
def compileRateJsonl (events : List StoredEvent) : ℚ :=
  (compileErrJsonl events : ℚ) / (compRateDen events : ℚ)

/-- Runtime error rate of the jsonl path. -/
def runtimeRateJsonl (events : List StoredEvent) : ℚ :=
  (runtimeErrJsonl events : ℚ) / (compRateDen events : ℚ)

/-- Compile errors of the database path: the SQL predicate
`coalesce(error_phase, m->>'phase') = 'compile'` (a null phase matches
neither error branch). -/
def compileErrDb (events : List StoredEvent) : Nat :=
  events.countP fun e => (e.evt == "java.run.error") && (e.phase == some "compile")

/-- Runtime errors of the database path: the SQL predicate
`coalesce(error_phase, m->>'phase') <> 'compile'`, which is null (hence
false) when the phase is null. -/
def runtimeErrDb (events : List StoredEvent) : Nat :=
  events.countP fun e => (e.evt == "java.run.error") &&
    (match e.phase with | none => false | some p => p != "compile")

/-- Compile error rate of the database path:
`started ? compileErr / started : 0`. -/
def compileRateDb (events : List StoredEvent) : ℚ :=
  if startedCount events = 0 then 0
  else (compileErrDb events : ℚ) / (startedCount events : ℚ)

/-- Runtime error rate of the database path. -/
def runtimeRateDb (events : List StoredEvent) : ℚ :=
  if startedCount events = 0 then 0
  else (runtimeErrDb events : ℚ) / (startedCount events : ℚ)

/-- C7 counterexample: a window holding one compile phase run error and no
run started event.  The claimed formula gives 1 (dividing by
`max(1, started) = 1`), but the database path reports a compile error rate
of 0. -/
theorem C7_counterexample :
    compileRateDb [{ evt := "java.run.error", phase := some "compile" }] = 0 ∧
    (compileErrDb [{ evt := "java.run.error", phase := some "compile" }] : ℚ) /
      ((max 1 (startedCount [{ evt := "java.run.error", phase := some "compile" }]) : Nat) : ℚ)
      = 1 := by
  constructor
  · simp [compileRateDb, startedCount]
  · have h1 : compileErrDb [{ evt := "java.run.error", phase := some "compile" }] = 1 := by
      decide
    have h2 : startedCount [{ evt := "java.run.error", phase := some "compile" }] = 0 := by
      decide
    rw [h1, h2]
    norm_num

/-- C7 (amended): the jsonl path divides by `max(1, started)` for every
window; the database path agrees with that formula whenever at least one
run started event is in the window, and reports 0 when none is, even if
errors are present. -/
theorem C7_error_rates (events : List StoredEvent) :
    (compileRateJsonl events =
        (compileErrJsonl events : ℚ) / ((max 1 (startedCount events) : Nat) : ℚ) ∧
      runtimeRateJsonl events =
        (runtimeErrJsonl events : ℚ) / ((max 1 (startedCount events) : Nat) : ℚ)) ∧
    (1 ≤ startedCount events →
      compileRateDb events =
        (compileErrDb events : ℚ) / ((max 1 (startedCount events) : Nat) : ℚ) ∧
      runtimeRateDb events =
        (runtimeErrDb events : ℚ) / ((max 1 (startedCount events) : Nat) : ℚ)) := by
  refine ⟨⟨rfl, rfl⟩, ?_⟩
  intro h
  have h0 : startedCount events ≠ 0 := by omega
  have hmax : max 1 (startedCount events) = startedCount events := by omega
  rw [compileRateDb, runtimeRateDb, if_neg h0, if_neg h0, hmax]
  exact ⟨rfl, rfl⟩

/-- Witness for C7: the amended statement applied to a window with one
started run and one compile error. -/
theorem C7_error_rates_witness :
    compileRateDb [{ evt := "java.run.started" }, { evt := "java.run.error", phase := some "compile" }] =
      (compileErrDb [{ evt := "java.run.started" }, { evt := "java.run.error", phase := some "compile" }] : ℚ) /
      ((max 1 (startedCount [{ evt := "java.run.started" }, { evt := "java.run.error", phase := some "compile" }]) : Nat) : ℚ) :=
  ((C7_error_rates _).2 (by decide)).1

/-- The date range resolution of `dbReadStats` (db module).  Times are UTC
epoch milliseconds; a calendar date is embedded as its day number since
the epoch.  With no (or an unparseable) `from`/`to` pair the range is the
epoch up to now; a valid pair with `from <= to` yields the range from
00:00:00.000 of the from day up to (exclusive) 23:59:59.000 of the to
day, which is what `new Date(toS + "T23:59:59Z")` produces.  The
`windowDays` argument is carried exactly as in the source signature: it
does not influence the range. -/
def resolveRange (windowDays : Nat) (now : Int) (fromD toD : Option Nat) : Int × Int :=
  match fromD, toD with
  | some f, some t =>
    if f ≤ t then ((f : Int) * 86400000, (t : Int) * 86400000 + 86399000)
    else (0, now)
  | _, _ => (0, now)

/-- The WHERE clause `t >= from and t < to` shared by the aggregation
queries of `dbReadStats`. -/
def inWindow (r : Int × Int) (x : Int) : Bool := decide (r.1 ≤ x) && decide (x < r.2)

/-- The `count(*)` total of `dbReadStats` over the resolved range. -/
def dbTotal (events : List StoredEvent) (r : Int × Int) : Nat :=
  events.countP fun e => inWindow r e.t

/-- Spec side predicate for the C2 counterexample: the timestamp lies on
calendar day `d` (UTC). -/
def onDay (d : Nat) (x : Int) : Bool :=
  decide ((d : Int) * 86400000 ≤ x) && decide (x < ((d : Int) + 1) * 86400000)

/-- C2 counterexample: with `from = to =` day 0, an event at 23:59:59.000
of day 0 lies on the (inclusive) to day but is excluded from the resolved
range and hence from every sub aggregate, so the claimed inclusive day
range does not hold for the final second of the to day. -/
theorem C2_counterexample :
    onDay 0 86399000 = true ∧
    inWindow (resolveRange 7 1760000000000 (some 0) (some 0)) 86399000 = false ∧
    dbTotal [{ t := 86399000 }] (resolveRange 7 1760000000000 (some 0) (some 0)) = 0 := by
  refine ⟨by decide, by decide, by decide⟩

/-- C2 (amended): with no `from`/`to` pair the resolved range is the whole
retained history up to the query time — membership is exactly
`0 <= t < now`, independent of `windowDays` — and a valid pair `f <= t`
overrides it with the range from 00:00:00.000 of day `f` up to
(exclusive) 23:59:59.000 of day `t`, so every event of the day range
except those in the final second of the to day is aggregated. -/
theorem C2_window_resolution (wd wd' : Nat) (now : Int) (f t d : Nat) (x off : Int)
    (events : List StoredEvent) :
    (inWindow (resolveRange wd now none none) x = (decide (0 ≤ x) && decide (x < now))) ∧
    (resolveRange wd now none none = resolveRange wd' now none none) ∧
    (dbTotal events (resolveRange wd now none none) =
      (events.filter fun e => decide (0 ≤ e.t) && decide (e.t < now)).length) ∧
    (f ≤ t → resolveRange wd now (some f) (some t) =
      ((f : Int) * 86400000, (t : Int) * 86400000 + 86399000)) ∧
    (f ≤ d → d ≤ t → 0 ≤ off → off < 86399000 →
      inWindow (resolveRange wd now (some f) (some t)) ((d : Int) * 86400000 + off) = true) := by
  refine ⟨rfl, rfl, ?_, ?_, ?_⟩
  · rw [dbTotal, List.countP_eq_length_filter]
    rfl
  · intro hft
    simp [resolveRange, hft]
  · intro hfd hdt h0 hoff
    have hft : f ≤ t := le_trans hfd hdt
    simp only [resolveRange, hft, if_true, inWindow, Bool.and_eq_true, decide_eq_true_eq]
    have hfd' : (f : Int) ≤ (d : Int) := by exact_mod_cast hfd
    have hdt' : (d : Int) ≤ (t : Int) := by exact_mod_cast hdt
    constructor <;> nlinarith

/-- Witness for C2: the amended range override and day membership at a
concrete valid pair of dates. -/
theorem C2_window_resolution_witness :
    inWindow (resolveRange 7 1760000000000 (some 1) (some 2))
      ((2 : Int) * 86400000 + 0) = true :=
  (C2_window_resolution 7 9 1760000000000 1 2 2 0 0 []).2.2.2.2
    (by decide) (by decide) (by decide) (by decide)

/-- The anchored literal head test of the private address regex, over the
character list of the address. -/
def headIs (pre ip : String) : Bool := pre.data.isPrefixOf ip.data

/-- The private address test of server.ts: a regex over literal address
string heads; a missing address counts as private. -/
def isPrivate (ip : String) : Bool :=
  if ip = "" then true
  else
    headIs "10." ip || headIs "127." ip || headIs "192.168." ip ||
    ((List.range 16).any fun i => headIs ("172." ++ toString (16 + i) ++ ".") ip) ||
    headIs "::1" ip || headIs "fc00:" ip || headIs "fe80:" ip ||
    headIs "fd00:" ip

/-- The JS `split(",")` over the character list. -/
def splitCommaAux : List Char → List Char → List String
  | [], acc => [⟨acc.reverse⟩]
  | c :: cs, acc =>
    if c = ',' then ⟨acc.reverse⟩ :: splitCommaAux cs []
    else splitCommaAux cs (c :: acc)

/-- The JS `split(",")` of `parseForwardedFor`. -/
def splitComma (s : String) : List String := splitCommaAux s.data []

/-- `parseForwardedFor` of server.ts: split on commas, trim every hop,
drop empties. -/
def parseForwardedFor : Option String → List String
  | none => []
  | some v => ((splitComma v).map jsTrim).filter fun s => s != ""

/-- The header signals consulted by `pickClientIp`, plus the transport
level peer address (`req.ip`, the empty string when unavailable). -/
structure IpHeaders where
  cfConnectingIp : Option String := none
  xClientIp : Option String := none
  xRealIp : Option String := none
  xForwardedFor : Option String := none
  peer : String := ""
  deriving Repr, DecidableEq

/-- The candidate chain of `pickClientIp`: the three single value headers,
the forwarded for hops, then the peer address, with falsy (missing or
empty) entries dropped. -/
def ipChain (h : IpHeaders) : List String :=
  (([h.cfConnectingIp, h.xClientIp, h.xRealIp].filterMap id) ++
      parseForwardedFor h.xForwardedFor ++ [h.peer]).filter fun s => s != ""

/-- The scanning loop of `pickClientIp`: first candidate that is not
private. -/
def firstNonPrivate : List String → Option String
  | [] => none
  | ip :: rest => if !isPrivate ip then some ip else firstNonPrivate rest

/-- `pickClientIp` of server.ts: first non private candidate, else the
first candidate, else the peer address. -/
def pickClientIp (h : IpHeaders) : String :=
  match firstNonPrivate (ipChain h) with
  | some ip => ip
  | none =>
    match ipChain h with
    | [] => h.peer
    | c :: _ => c

/-- Modelled from the claim sentence of C8: the address classes the claim
says must be skipped — RFC1918, loopback, link local IPv4 (169.254.0.0/16)
and IPv6, and the whole IPv6 ULA block fc00::/7. -/
def claimPrivateIp (ip : String) : Bool :=
  headIs "10." ip || headIs "127." ip || headIs "192.168." ip ||
  ((List.range 16).any fun i => headIs ("172." ++ toString (16 + i) ++ ".") ip) ||
  headIs "169.254." ip || headIs "::1" ip || headIs "fe80:" ip ||
  headIs "fc" ip || headIs "fd" ip

/-- C8 counterexample: for the forwarded for chain
"169.254.1.1, 203.0.113.7" the code returns the IPv4 link local hop,
although the claim says link local IPv4 addresses are skipped and a non
private candidate appears later in the chain. -/
theorem C8_counterexample :
    pickClientIp { xForwardedFor := some "169.254.1.1, 203.0.113.7",
                   peer := "192.168.1.9" } = "169.254.1.1" ∧
    claimPrivateIp "169.254.1.1" = true ∧
    claimPrivateIp "203.0.113.7" = false ∧
    (ipChain { xForwardedFor := some "169.254.1.1, 203.0.113.7",
               peer := "192.168.1.9" }).contains "203.0.113.7" = true := by
  refine ⟨by decide, by decide, by decide, by decide⟩

theorem firstNonPrivate_eq_find (l : List String) :
    firstNonPrivate l = l.find? fun ip => !isPrivate ip := by
  induction l with
  | nil => rfl
  | cons ip rest ih =>
    unfold firstNonPrivate
    rw [List.find?_cons]
    by_cases hp : isPrivate ip
    · simp [hp, ih]
    · simp [hp]

/-- C8 (amended): `pickClientIp` walks the candidate chain and returns the
first candidate whose string head is outside the literal private set
10., 127., 192.168., 172.16.–172.31., ::1, fc00:, fe80:, fd00: (IPv4 link
local 169.254.* and ULA addresses outside the two literal heads are
treated as public); if every candidate is private it returns the first
candidate, or the peer address when the chain is empty; for the forwarded
chain "10.0.0.5, 203.0.113.7" it selects 203.0.113.7. -/
theorem C8_pick_client_ip (h : IpHeaders) :
    (pickClientIp h = match (ipChain h).find? (fun ip => !isPrivate ip) with
      | some ip => ip
      | none => (ipChain h).headD h.peer) ∧
    pickClientIp { xForwardedFor := some "10.0.0.5, 203.0.113.7",
                   peer := "192.168.1.9" } = "203.0.113.7" ∧
    isPrivate "169.254.1.1" = false := by
  refine ⟨?_, by decide, by decide⟩
  unfold pickClientIp
  rw [firstNonPrivate_eq_find]
  cases hf : (ipChain h).find? fun ip => !isPrivate ip with
  | some ip => rfl
  | none => cases ipChain h <;> rfl

/-- The JS `toUpperCase` over the character list (ASCII case mapping). -/
def jsToUpper (s : String) : String :=
  ⟨s.data.map Char.toUpper⟩

/-- The static country to continent table `CONTINENT` of the jsonl
aggregator. -/
def CONTINENT : List (String × String) :=
  [("US", "NA"), ("CA", "NA"), ("MX", "NA"), ("BR", "SA"), ("AR", "SA"),
   ("CL", "SA"), ("CO", "SA"),
   ("GB", "EU"), ("DE", "EU"), ("FR", "EU"), ("ES", "EU"), ("IT", "EU"),
   ("NL", "EU"), ("SE", "EU"), ("PL", "EU"), ("IE", "EU"), ("PT", "EU"),
   ("CZ", "EU"), ("RO", "EU"), ("HU", "EU"), ("RU", "EU"), ("UA", "EU"),
   ("TR", "AS"),
   ("CN", "AS"), ("JP", "AS"), ("KR", "AS"), ("IN", "AS"), ("SG", "AS"),
   ("HK", "AS"), ("TW", "AS"), ("ID", "AS"), ("PH", "AS"), ("TH", "AS"),
   ("VN", "AS"), ("MY", "AS"), ("PK", "AS"), ("BD", "AS"),
   ("AU", "OC"), ("NZ", "OC"),
   ("ZA", "AF"), ("NG", "AF"), ("EG", "AF"), ("MA", "AF"), ("KE", "AF"),
   ("ET", "AF"), ("DZ", "AF"), ("GH", "AF"), ("TZ", "AF"), ("CI", "AF"),
   ("SN", "AF")]

/-- The country key of one jsonl event: `(e.country || "-").toUpperCase()`. -/
def countryKey (e : StoredEvent) : String :=
  jsToUpper (if e.country = "" then "-" else e.country)

/-- The continent of a country key: `CONTINENT[country] || "UN"`. -/
def continentKey (c : String) : String := (CONTINENT.lookup c).getD "UN"

/-- The store backing the expressions `global[keyC]` and `global[keyT]` of
the jsonl aggregator: the Node `global` object holding one seen set of
anon ids per map key.  A missing key reads as the empty set, exactly as
`global[key] = global[key] || new Set()` initializes it. -/
abbrev SetStore := List (String × List String)

/-- Read the seen set stored under a key. -/
def storeGet (g : SetStore) (k : String) : List String := (g.lookup k).getD []

/-- Add one anon id to the seen set stored under a key. -/
def storeAdd (g : SetStore) (k : String) (a : String) : SetStore :=
  match g with
  | [] => [(k, [a])]
  | (k', s) :: rest => if k' = k then (k', a :: s) :: rest else (k', s) :: storeAdd rest k a

/-- A per key pair of (hits, visitors), as kept in
`byCountry[country] = { hits, visitors }`. -/
abbrev CountMap := List (String × Nat × Nat)

/-- `byCountry[country] = byCountry[country] || { hits: 0, visitors: 0 }`. -/
def ensureKey (m : CountMap) (k : String) : CountMap :=
  if (m.lookup k).isSome then m else m ++ [(k, 0, 0)]

/-- `byCountry[country].hits++`. -/
def addHit (m : CountMap) (k : String) : CountMap :=
  m.map fun p => if p.1 = k then (p.1, p.2.1 + 1, p.2.2) else p

/-- `byCountry[country].visitors++`. -/
def addVisitor (m : CountMap) (k : String) : CountMap :=
  m.map fun p => if p.1 = k then (p.1, p.2.1, p.2.2 + 1) else p

/-- The visitors component stored under a key. -/
def visitorsOf (m : CountMap) (k : String) : Option Nat := (m.lookup k).map (·.2)

/-- The state of the geographic rollup of the jsonl aggregator:
the per country and per continent tallies are locals of one
`readWindowStats` call, while `globalSets` models the seen sets the source
keeps on the Node `global` object, which outlives the call. -/
structure GeoSt where
  byCountry : CountMap := []
  byContinent : CountMap := []
  globalSets : SetStore := []

/-- One event of the geographic rollup loop of `readWindowStats`:
bump the hits, then bump the visitors once per anon id not yet in the
seen set read from `global`. -/
def geoStep (st : GeoSt) (e : StoredEvent) : GeoSt :=
  let country := countryKey e
  let cont := continentKey country
  let bc := addHit (ensureKey st.byCountry country) country
  let bt := addHit (ensureKey st.byContinent cont) cont
  if e.anon = "" then { st with byCountry := bc, byContinent := bt }
  else
    let keyC := "c:" ++ country
    let setC := storeGet st.globalSets keyC
    let pc :=
      if setC.contains e.anon then (bc, st.globalSets)
      else (addVisitor bc country, storeAdd st.globalSets keyC e.anon)
    let keyT := "t:" ++ cont
    let setT := storeGet pc.2 keyT
    let pt :=
      if setT.contains e.anon then (bt, pc.2)
      else (addVisitor bt cont, storeAdd pc.2 keyT e.anon)
    { byCountry := pc.1, byContinent := pt.1, globalSets := pt.2 }

/-- The geographic rollup of one `readWindowStats` call over the window
events, started from the current state `g0` of the `global` seen sets
(an empty store on the first call of the process). -/
def readGeoStats (g0 : SetStore) (events : List StoredEvent) : GeoSt :=
  events.foldl geoStep { globalSets := g0 }

/-- The single stored event used to exhibit the seen set leak. -/
def c1Event : StoredEvent :=
  { t := 1760000000000, anon := "aaaaaaaaaaaaaaaaaaaaaaaaaaaaaaaa",
    evt := "test.ping", country := "US" }

/-- C1: the per country and per continent seen sets live on the Node
`global` object and survive the call, so re-running the aggregation over
the same single stored event reports one unique visitor for US and NA the
first time and zero the second time — the two invocations disagree,
contradicting the claim that the counts are repeatable. -/
theorem C1_global_seen_sets_leak :
    visitorsOf (readGeoStats [] [c1Event]).byCountry "US" = some 1 ∧
    visitorsOf (readGeoStats [] [c1Event]).byContinent "NA" = some 1 ∧
    visitorsOf (readGeoStats (readGeoStats [] [c1Event]).globalSets [c1Event]).byCountry "US"
      = some 0 ∧
    visitorsOf (readGeoStats (readGeoStats [] [c1Event]).globalSets [c1Event]).byContinent "NA"
      = some 0 := by
  refine ⟨by decide, by decide, by decide, by decide⟩

/-- Sum of the per key counts of `byEvent`. -/
def sumVals (m : List (String × Nat)) : Nat := (m.map (·.2)).sum

/-- `byEvent[evt] = (byEvent[evt] || 0) + 1`. -/
def bump (m : List (String × Nat)) (k : String) : List (String × Nat) :=
  match m with
  | [] => [(k, 1)]
  | (k', v) :: rest => if k' = k then (k', v + 1) :: rest else (k', v) :: bump rest k

theorem sumVals_bump (m : List (String × Nat)) (k : String) :
    sumVals (bump m k) = sumVals m + 1 := by
  induction m with
  | nil => rfl
  | cons p rest ih =>
    unfold bump
    by_cases h : p.1 = k
    · simp [h, sumVals]
      omega
    · simp only [h, if_false]
      simp [sumVals] at ih ⊢
      omega

/-- `hourly[h]++` on the 24 hour tallies. -/
def bumpHour (f : Fin 24 → Nat) (i : Fin 24) : Fin 24 → Nat :=
  fun b => if b = i then f b + 1 else f b

theorem sum_bumpHour (f : Fin 24 → Nat) (i : Fin 24) :
    (∑ b : Fin 24, bumpHour f i b) = (∑ b : Fin 24, f b) + 1 := by
  unfold bumpHour
  have hsplit : (∑ b : Fin 24, if b = i then f b + 1 else f b)
      = ∑ b : Fin 24, (f b + if b = i then 1 else 0) := by
    apply Finset.sum_congr rfl
    intro b _
    by_cases h : b = i <;> simp [h]
  rw [hsplit, Finset.sum_add_distrib, Finset.sum_ite_eq']
  simp

/-- `evt || "unknown"` of the jsonl aggregator. -/
def evtKey (e : StoredEvent) : String := if e.evt = "" then "unknown" else e.evt

/-- The effective timestamp of one jsonl event: the seconds to
milliseconds safeguard for truthy values below `1e12`, then the
`ts || Date.now()` fallback. -/
def effTs (now : Int) (e : StoredEvent) : Int :=
  let ts := if e.t ≠ 0 ∧ e.t < 1000000000000 then e.t * 1000 else e.t
  if ts = 0 then now else ts

/-- `getUTCHours` of an epoch millisecond value. -/
def hourOf (ts : Int) : Fin 24 :=
  ⟨((ts.fdiv 3600000).emod 24).toNat, by
    have h1 : 0 ≤ (ts.fdiv 3600000).emod 24 := Int.emod_nonneg _ (by norm_num)
    have h2 : (ts.fdiv 3600000).emod 24 < 24 := Int.emod_lt_of_pos _ (by norm_num)
    omega⟩

/-- The per call accumulator of `readWindowStats` for the four counting
breakdowns under study: the grand total, the per event name tallies, the
24 hour of day tallies, and the per day hit counts. -/
structure MainAgg where
  total : Nat := 0
  byEvent : List (String × Nat) := []
  hourly : Fin 24 → Nat := fun _ => 0
  dayHits : List Nat := []

/-- One event of the main loop of `readWindowStats`: `total++`,
`byEvent[evt]++`, `hourly[h]++`, and `dayHits[di]++` carried as the
second component of the pair. -/
def eventStep (now : Int) (p : MainAgg × Nat) (e : StoredEvent) : MainAgg × Nat :=
  ({ total := p.1.total + 1
     byEvent := bump p.1.byEvent (evtKey e)
     hourly := bumpHour p.1.hourly (hourOf (effTs now e))
     dayHits := p.1.dayHits }, p.2 + 1)

/-- One day file of the main loop: run the event loop with a fresh per day
hit counter, then record that counter as the hits of this day. -/
def dayStep (now : Int) (a : MainAgg) (day : List StoredEvent) : MainAgg :=
  let p := day.foldl (eventStep now) (a, 0)
  { p.1 with dayHits := p.1.dayHits ++ [p.2] }

/-- The main counting loop of `readWindowStats` over the per day windows
of stored events. -/
def readMainAgg (now : Int) (days : List (List StoredEvent)) : MainAgg :=
  days.foldl (dayStep now) {}

theorem eventLoop_counts (now : Int) (day : List StoredEvent) :
    ∀ (a : MainAgg) (n : Nat),
      (day.foldl (eventStep now) (a, n)).1.total = a.total + day.length ∧
      sumVals (day.foldl (eventStep now) (a, n)).1.byEvent = sumVals a.byEvent + day.length ∧
      (∑ b : Fin 24, (day.foldl (eventStep now) (a, n)).1.hourly b) =
        (∑ b : Fin 24, a.hourly b) + day.length ∧
      (day.foldl (eventStep now) (a, n)).1.dayHits = a.dayHits ∧
      (day.foldl (eventStep now) (a, n)).2 = n + day.length := by
  induction day with
  | nil => intro a n; simp
  | cons e rest ih =>
    intro a n
    simp only [List.foldl_cons, List.length_cons]
    have he : eventStep now (a, n) e =
        ({ total := a.total + 1, byEvent := bump a.byEvent (evtKey e),
           hourly := bumpHour a.hourly (hourOf (effTs now e)),
           dayHits := a.dayHits }, n + 1) := rfl
    rw [he]
    have h := ih { total := a.total + 1, byEvent := bump a.byEvent (evtKey e),
                   hourly := bumpHour a.hourly (hourOf (effTs now e)),
                   dayHits := a.dayHits } (n + 1)
    refine ⟨?_, ?_, ?_, ?_, ?_⟩
    · rw [h.1]
      show a.total + 1 + rest.length = a.total + (rest.length + 1)
      omega
    · rw [h.2.1]
      show sumVals (bump a.byEvent (evtKey e)) + rest.length
        = sumVals a.byEvent + (rest.length + 1)
      rw [sumVals_bump]
      omega
    · rw [h.2.2.1]
      show (∑ b : Fin 24, bumpHour a.hourly (hourOf (effTs now e)) b) + rest.length
        = (∑ b : Fin 24, a.hourly b) + (rest.length + 1)
      rw [sum_bumpHour]
      omega
    · exact h.2.2.2.1
    · rw [h.2.2.2.2]
      omega

/-- The three sum invariants are preserved by the outer per day loop. -/
theorem mainAgg_invariant (now : Int) (days : List (List StoredEvent)) :
    ∀ a : MainAgg,
      a.total = sumVals a.byEvent →
      a.total = a.dayHits.sum →
      a.total = (∑ b : Fin 24, a.hourly b) →
      (days.foldl (dayStep now) a).total = sumVals (days.foldl (dayStep now) a).byEvent ∧
      (days.foldl (dayStep now) a).total = (days.foldl (dayStep now) a).dayHits.sum ∧
      (days.foldl (dayStep now) a).total =
        (∑ b : Fin 24, (days.foldl (dayStep now) a).hourly b) := by
  induction days with
  | nil => intro a h1 h2 h3; exact ⟨h1, h2, h3⟩
  | cons day rest ih =>
    intro a h1 h2 h3
    simp only [List.foldl_cons]
    have hc := eventLoop_counts now day a 0
    apply ih
    · show (day.foldl (eventStep now) (a, 0)).1.total
        = sumVals (day.foldl (eventStep now) (a, 0)).1.byEvent
      rw [hc.1, hc.2.1]
      omega
    · show (day.foldl (eventStep now) (a, 0)).1.total
        = ((day.foldl (eventStep now) (a, 0)).1.dayHits
            ++ [(day.foldl (eventStep now) (a, 0)).2]).sum
      rw [hc.1, hc.2.2.2.1, hc.2.2.2.2, List.sum_append]
      simp
      omega
    · show (day.foldl (eventStep now) (a, 0)).1.total
        = (∑ b : Fin 24, (day.foldl (eventStep now) (a, 0)).1.hourly b)
      rw [hc.1, hc.2.2.1]
      omega

/-- C10: for every input event set the total of `readWindowStats` equals
the sum of the per event name counts, the sum of the per day hit counts,
and the sum of the 24 hourly counts — each window event is tallied exactly
once in each of the three breakdowns. -/
theorem C10_cross_breakdown (now : Int) (days : List (List StoredEvent)) :
    (readMainAgg now days).total = sumVals (readMainAgg now days).byEvent ∧
    (readMainAgg now days).total = (readMainAgg now days).dayHits.sum ∧
    (readMainAgg now days).total = (∑ b : Fin 24, (readMainAgg now days).hourly b) :=
  mainAgg_invariant now days {} rfl rfl (by simp)

end Minigem
